import Mathlib

/-!
Verification of the commandeer struct-to-flags binding layer.

The Go source (com.go) is modelled over `List Char` / `String` for names and
over an explicit state (flag registry, shorthand set, struct store) for the
reflective walk.  Strings are assumed ASCII where the Go code indexes bytes
(flag names and tags come from Go identifiers and struct tags).
-/

namespace Commandeer

/-- The `nextUpper` update of `downcaseAndDash` (com.go:404-406): the
look-ahead is recomputed only when `i+1 < len(input)`; at the last character it
keeps its previous (stale) value. -/
def nuNext (nextUpper : Bool) : List Char → Bool
  | [] => nextUpper
  | d :: _ => d.isUpper

/-- Loop body of `downcaseAndDash` (com.go:399-420).  `ret` is the accumulated
output, `lastUpper` remembers whether the previous character was upper case. -/
def ddLoop (ret : List Char) (lastUpper nextUpper : Bool) : List Char → List Char
  | [] => ret
  | c :: rest =>
    let nu : Bool := nuNext nextUpper rest
    if c.isUpper then
      if ret.length = 0 || (lastUpper && nu) then
        ddLoop (ret ++ [c.toLower]) true nu rest
      else
        ddLoop (ret ++ ['-', c.toLower]) true nu rest
    else
      ddLoop (ret ++ [c]) false nu rest

/-- `downcaseAndDash` (com.go:399-420), over the characters of the input. -/
def downcaseAndDash (input : List Char) : List Char := ddLoop [] false false input

/-- `downcaseAndDash` on `String`s. -/
def downcaseAndDashStr (s : String) : String := String.mk (downcaseAndDash s.data)

/-- Whether an upper-case run continues at this point: true at the end of the
input or when the next character is upper case. -/
def contUpper : List Char → Bool
  | [] => true
  | d :: _ => d.isUpper

/-- The claim's characterization of the transform: an upper-case letter gets no
leading dash iff it is the first character, or the previous character is upper
case and the run is not immediately broken by a lower-case character.  Written
from the claim's description, for comparison with the code's
`downcaseAndDash`. -/
def dashSpec : Option Char → List Char → List Char
  | _, [] => []
  | none, c :: rest =>
    (if c.isUpper then [c.toLower] else [c]) ++ dashSpec (some c) rest
  | some p, c :: rest =>
    (if c.isUpper then
      (if p.isUpper && contUpper rest then [c.toLower] else ['-', c.toLower])
    else [c]) ++ dashSpec (some c) rest

/-- Top level of the spec-side transform. -/
def downcaseAndDashSpec (input : List Char) : List Char := dashSpec none input


/-- Character replacement of the `strings.NewReplacer("-", "_", ".", "_")`
replacer (com.go:81). -/
def replaceDashDot (c : Char) : Char := if c = '-' || c = '.' then '_' else c

/-- `envNorm` (com.go:83-85) over characters: replace dashes and dots by
underscores, then upper-case (ASCII). -/
def envNormL (l : List Char) : List Char := (l.map replaceDashDot).map Char.toUpper

/-- `envNorm` (com.go:83-85). -/
def envNorm (s : String) : String := String.mk (envNormL s.data)

/-- The environment key consulted by `loadEnv` for a registered flag name:
`envNorm(prefix + name)` (com.go:92). -/
def consultedEnvKey (pfx name : String) : String := envNorm (pfx ++ name)

/-- `strings.Split(val, ",")` on characters. -/
def splitComma : List Char → List (List Char)
  | [] => [[]]
  | c :: rest =>
    match splitComma rest with
    | [] => [[c]]
    | g :: gs => if c = ',' then [] :: g :: gs else (c :: g) :: gs

/-- `strings.Split(val, ",")`. -/
def splitCommaStr (s : String) : List String := (splitComma s.data).map String.mk

/-- `stringSliceValue.Set` (com.go:189-192): `*s.value = strings.Split(val, ",")`.
`prev` is the current contents of the aliased slice; the assignment overwrites
it unconditionally. -/
def stringSliceSet (prev : List String) (val : String) : List String :=
  splitCommaStr val

/-- A value held in a struct field / flag cell.  The walker only moves these
around; payloads of types whose textual conversion no claim depends on
(floats, IPs, durations, encodables, pflag-native slices) are carried as
`vraw` raw strings. -/
inductive FlagVal where
  | vstr (s : String)
  | vbool (b : Bool)
  | vint (n : Int)
  | vstrslice (xs : List String)
  | vraw (raw : String)
  deriving DecidableEq

/-- How `Set(name, value)` converts the string for a registered flag:
the value type the binder installed for the cell. -/
inductive ValueKind where
  | kstr | kbool | kint | kstrslice | kraw
  deriving DecidableEq

/-- One entry of the flag registry: name, shorthand, value kind, default
value captured at bind time, the aliased struct cell, and help text. -/
structure RegEntry where
  name : String
  shorthand : String
  kind : ValueKind
  defVal : FlagVal
  cell : Nat
  help : String
  deriving DecidableEq

/-- Combined mutable state of one orchestration: the flag collection's
registry, the shorthand tracker's claimed letters (`flagTracker.shorts`,
com.go:461-478), and the config struct's field cells. -/
structure St where
  registry : List RegEntry
  shorts : List Char
  store : List (Nat × FlagVal)
  deriving DecidableEq

/-- Lookup of a struct cell. -/
def storeLookup (c : Nat) : List (Nat × FlagVal) → Option FlagVal
  | [] => none
  | (a, v) :: rest => if a = c then some v else storeLookup c rest

/-- Read a cell's current value (the Go code dereferences the field pointer,
which always succeeds). -/
def storeGetD (st : St) (c : Nat) : FlagVal :=
  (storeLookup c st.store).getD (FlagVal.vraw "")

/-- Association-list lookup for the environment and for tokenized args. -/
def alookup (k : String) : List (String × String) → Option String
  | [] => none
  | (a, v) :: rest => if a = k then some v else alookup k rest

/-- Element kinds of slice types that reach the `reflect.Slice` branch of
`setFlags` (com.go:296-315). -/
inductive ElemKind where
  | stringE | boolE | intE | uintE | otherE
  deriving DecidableEq

/-- The non-struct field types distinguished by `setFlags`'s dispatch
(com.go:228-357).  Each Go type is mapped to the first case of the source's
two switches that matches it: e.g. a literal `[]string` field is
`stringSliceT` (the concrete-type switch at com.go:257 catches it before the
kind switch), and `time.Duration` is `durationT` (com.go:230). -/
inductive AtomType where
  | durationT | ipMaskT | ipNetT | ipT | ipSliceT
  | stringSliceT
  | encodableT
  | stringK | boolK | intK | int64K | float64K | uintK | uint64K
  | sliceK (elem : ElemKind)
  | float32K | int16K | int32K | uint16K | uint32K | uint8K | int8K
  | otherK
  deriving DecidableEq

mutual
/-- A struct field as seen by the reflective walk: Go name, exported flag
(`PkgPath == ""`), the four tags, and either an atomic type with the cell it
aliases, or a nested struct with its own fields. -/
inductive GoField where
  | atom (name : String) (exported : Bool) (ftag jtag htag stag : Option String)
      (typ : AtomType) (cell : Nat)
  | strukt (name : String) (exported : Bool) (ftag jtag htag stag : Option String)
      (fields : GoFields)
/-- A list of struct fields (mutually inductive with `GoField`). -/
inductive GoFields where
  | nil
  | cons (f : GoField) (fs : GoFields)
end

/-- Append on field lists. -/
def GoFields.append : GoFields → GoFields → GoFields
  | .nil, ys => ys
  | .cons f fs, ys => .cons f (GoFields.append fs ys)

def fieldName : GoField → String
  | .atom n _ _ _ _ _ _ _ => n
  | .strukt n _ _ _ _ _ _ => n

def fieldExported : GoField → Bool
  | .atom _ e _ _ _ _ _ _ => e
  | .strukt _ e _ _ _ _ _ => e

def fieldFlagTag : GoField → Option String
  | .atom _ _ ft _ _ _ _ _ => ft
  | .strukt _ _ ft _ _ _ _ => ft

def fieldJsonTag : GoField → Option String
  | .atom _ _ _ jt _ _ _ _ => jt
  | .strukt _ _ _ jt _ _ _ => jt

def fieldHelpTag : GoField → Option String
  | .atom _ _ _ _ ht _ _ _ => ht
  | .strukt _ _ _ _ ht _ _ => ht

def fieldShortTag : GoField → Option String
  | .atom _ _ _ _ _ sg _ _ => sg
  | .strukt _ _ _ _ _ sg _ => sg

/-- Subfields of a nested-struct field (empty for atoms). -/
def fieldSubfields : GoField → GoFields
  | .atom _ _ _ _ _ _ _ _ => .nil
  | .strukt _ _ _ _ _ _ fields => fields

/-- `flagName` (com.go:382-394): "flag" tag, else "json" tag, else the field
name through `downcaseAndDash`. -/
def flagNameOf (f : GoField) : String :=
  match fieldFlagTag f with
  | some s => s
  | none =>
    match fieldJsonTag f with
    | some s => s
    | none => downcaseAndDashStr (fieldName f)

/-- `flagHelp` (com.go:423-428). -/
def flagHelpOf (f : GoField) : String := (fieldHelpTag f).getD ""

/-- UTF-8 byte width of a character, as `utf8.DecodeRuneInString` reports it. -/
def utf8Width (c : Char) : Nat :=
  if c.val < 0x80 then 1 else if c.val < 0x800 then 2 else if c.val < 0x10000 then 3 else 4

/-- `utf8.RuneError`. -/
def runeErrorChar : Char := Char.ofNat 0xFFFD

/-- `flagTracker.short` (com.go:482-498).  An absent or explicitly empty tag
yields no shorthand; otherwise the first rune must decode as a single byte
(`runeVal == utf8.RuneError || width > 1` is the error test) and must not have
been claimed before; on success the whole tag string is returned and the first
rune is claimed.  Error texts follow the source with the surrounding quotes
elided. -/
def shortFn (stag : Option String) (shorts : List Char) :
    Except String (String × List Char) :=
  match stag with
  | none => .ok ("", shorts)
  | some s =>
    match s.data with
    | [] => .ok ("", shorts)
    | c :: _ =>
      if c = runeErrorChar ∨ utf8Width c > 1 then
        .error (s ++ " is not a valid single ascii character.")
      else if c ∈ shorts then
        .error (s ++ " has already been used.")
      else
        .ok (s, c :: shorts)

/-- Capabilities of the flag collection handed to the binder: whether it is a
`PFlagger` (com.go:476) and whether it implements `FlagNamer` (com.go:90). -/
structure FCol where
  pflag : Bool
  hasNamer : Bool

/-- Register one flag: the `flagTracker` bind methods (com.go:500-631) append
an entry whose value cell aliases the struct field; the shorthand is passed on
only when the collection is a `PFlagger`. -/
def registerFlag (fc : FCol) (st : St) (name sh : String) (kind : ValueKind)
    (cell : Nat) (help : String) : St :=
  { st with registry := st.registry ++
      [⟨name, if fc.pflag then sh else "", kind, storeGetD st cell, cell, help⟩] }

/-- The type dispatch of `setFlags` for a non-struct field (com.go:228-357):
concrete well-known types first (duration, IP family, `[]string`, encodable),
then the basic kinds; `fname` is the (already prefixed) flag name and `pfx`
the current prefix, used in the unsupported-kind errors exactly as the source
does.  Error texts follow the source with quotes and `%#v` values elided. -/
def walkAtom (fc : FCol) (st : St) (fname sh : String) (typ : AtomType)
    (cell : Nat) (help : String) (pfx : String) : St × Option String :=
  match typ with
  | .durationT => (registerFlag fc st fname sh .kraw cell help, none)
  | .ipMaskT =>
    if fc.pflag then (registerFlag fc st fname sh .kraw cell help, none)
    else (st, some ("cannot support net.IPMask field at " ++ fname ++ " with stdlib flag pkg."))
  | .ipNetT =>
    if fc.pflag then (registerFlag fc st fname sh .kraw cell help, none)
    else (st, some ("cannot support net.IPNet field at " ++ fname ++ " with stdlib flag pkg."))
  | .ipT =>
    if fc.pflag then (registerFlag fc st fname sh .kraw cell help, none)
    else (st, some ("cannot support net.IP field at " ++ fname ++ " with stdlib flag pkg."))
  | .ipSliceT =>
    if fc.pflag then (registerFlag fc st fname sh .kraw cell help, none)
    else (st, some ("cannot support []net.IP field at " ++ fname ++ " with stdlib flag pkg."))
  | .stringSliceT => (registerFlag fc st fname sh .kstrslice cell help, none)
  | .encodableT => (registerFlag fc st fname sh .kraw cell help, none)
  | .stringK => (registerFlag fc st fname sh .kstr cell help, none)
  | .boolK => (registerFlag fc st fname sh .kbool cell help, none)
  | .intK => (registerFlag fc st fname sh .kint cell help, none)
  | .int64K => (registerFlag fc st fname sh .kint cell help, none)
  | .float64K => (registerFlag fc st fname sh .kraw cell help, none)
  | .uintK => (registerFlag fc st fname sh .kint cell help, none)
  | .uint64K => (registerFlag fc st fname sh .kint cell help, none)
  | .sliceK e =>
    if fc.pflag then
      match e with
      | .stringE => (registerFlag fc st fname sh .kraw cell help, none)
      | .boolE => (registerFlag fc st fname sh .kraw cell help, none)
      | .intE => (registerFlag fc st fname sh .kraw cell help, none)
      | .uintE => (registerFlag fc st fname sh .kraw cell help, none)
      | .otherE => (st, some ("encountered unsupported slice type/kind at " ++ pfx))
    else (st, some ("cannot support slice field at " ++ fname ++ " with stdlib flag pkg."))
  | .float32K =>
    if fc.pflag then (registerFlag fc st fname sh .kraw cell help, none)
    else (st, some ("cannot support float32 field at " ++ fname ++ " with stdlib flag pkg."))
  | .int16K =>
    if fc.pflag then (registerFlag fc st fname sh .kraw cell help, none)
    else (st, some ("cannot support int16 field at " ++ fname ++ " with stdlib flag pkg."))
  | .int32K =>
    if fc.pflag then (registerFlag fc st fname sh .kraw cell help, none)
    else (st, some ("cannot support int32 field at " ++ fname ++ " with stdlib flag pkg."))
  | .uint16K =>
    if fc.pflag then (registerFlag fc st fname sh .kraw cell help, none)
    else (st, some ("cannot support uint16 field at " ++ fname ++ " with stdlib flag pkg."))
  | .uint32K =>
    if fc.pflag then (registerFlag fc st fname sh .kraw cell help, none)
    else (st, some ("cannot support uint32 field at " ++ fname ++ " with stdlib flag pkg."))
  | .uint8K =>
    if fc.pflag then (registerFlag fc st fname sh .kraw cell help, none)
    else (st, some ("cannot support uint8 field at " ++ fname ++ " with stdlib flag pkg."))
  | .int8K =>
    if fc.pflag then (registerFlag fc st fname sh .kraw cell help, none)
    else (st, some ("cannot support int8 field at " ++ fname ++ " with stdlib flag pkg."))
  | .otherK => (st, some ("encountered unsupported field type/kind at " ++ pfx))

mutual
/-- Processing of one field by `setFlags` (com.go:210-375): skip unexported
fields; resolve the flag name and skip the ignore sentinel; resolve the
shorthand (mutating the tracker); prefix the name; then dispatch on the type,
recursing into nested structs with the new prefix (or the unchanged prefix for
the `!embed` marker, com.go:363-367).  The returned state carries all
mutations made up to an error, as in Go. -/
def walkField (fc : FCol) (st : St) (pfx : String) (f : GoField) :
    St × Option String :=
  if fieldExported f then
    let fn := flagNameOf f
    if fn = "-" ∨ fn = "" then (st, none)
    else
      match shortFn (fieldShortTag f) st.shorts with
      | .error e => (st, some ("getting shorthand for " ++ fieldName f ++ ": " ++ e))
      | .ok (sh, shorts') =>
        let fname := if pfx = "" then fn else pfx ++ "." ++ fn
        match f with
        | .atom _ _ _ _ _ _ typ cell =>
          walkAtom fc { st with shorts := shorts' } fname sh typ cell
            (flagHelpOf f) pfx
        | .strukt _ _ _ _ _ _ fields =>
          let npfx := if fname = "!embed" then pfx else fname
          walkFields fc { st with shorts := shorts' } npfx fields
  else (st, none)

/-- The field loop of `setFlags` (com.go:210-375). -/
def walkFields (fc : FCol) (st : St) (pfx : String) (fs : GoFields) :
    St × Option String :=
  match fs with
  | .nil => (st, none)
  | .cons f rest =>
    match walkField fc st pfx f with
    | (st', some e) => (st', some e)
    | (st', none) => walkFields fc st' pfx rest
end

/-- Fresh tracker state of `newFlagTracker` (com.go:469-478): empty registry,
the help letter pre-claimed, and the caller's struct cells. -/
def initSt (store : List (Nat × FlagVal)) : St := ⟨[], ['h'], store⟩

/-- `Flags` (com.go:46-59) on a (pointer to) struct: run the walk on a fresh
tracker. -/
def flagsStep (fc : FCol) (store : List (Nat × FlagVal)) (fields : GoFields) :
    Except String St :=
  match walkFields fc (initSt store) "" fields with
  | (_, some e) => .error e
  | (st, none) => .ok st

/-- `strconv.ParseBool`, as the stdlib flag package uses for bool flags. -/
def parseBool (s : String) : Option Bool :=
  if s = "1" ∨ s = "t" ∨ s = "T" ∨ s = "true" ∨ s = "TRUE" ∨ s = "True" then some true
  else if s = "0" ∨ s = "f" ∨ s = "F" ∨ s = "false" ∨ s = "FALSE" ∨ s = "False" then some false
  else none

def digitsToNat (acc : Nat) : List Char → Option Nat
  | [] => some acc
  | c :: rest =>
    if c.isDigit then digitsToNat (acc * 10 + (c.toNat - '0'.toNat)) rest else none

/-- Base-10 `strconv.ParseInt`-style parsing (optional sign, digits). -/
def parseInt (s : String) : Option Int :=
  match s.data with
  | [] => none
  | '-' :: rest =>
    match rest with
    | [] => none
    | _ => (digitsToNat 0 rest).map (fun n => -(n : Int))
  | '+' :: rest =>
    match rest with
    | [] => none
    | _ => (digitsToNat 0 rest).map (fun n => (n : Int))
  | l => (digitsToNat 0 l).map (fun n => (n : Int))

/-- Modelled from the spec: the flag collection is an external collaborator
("bind a variable at this name", `Set(name, value)` writes through to the
bound struct field).  `setByKind` is the string conversion of the value bound
for each kind: plain assignment for strings, stdlib parsing for bool/int
kinds, the repository's own comma-split replacement `stringSliceValue.Set`
for `[]string` cells (com.go:189-192), and an opaque raw-string store for the
kinds whose conversions no claim depends on. -/
def setByKind : ValueKind → String → Except String FlagVal
  | .kstr, val => .ok (.vstr val)
  | .kbool, val =>
    match parseBool val with
    | some b => .ok (.vbool b)
    | none => .error ("invalid boolean value " ++ val)
  | .kint, val =>
    match parseInt val with
    | some n => .ok (.vint n)
    | none => .error ("invalid integer value " ++ val)
  | .kstrslice, val => .ok (.vstrslice (splitCommaStr val))
  | .kraw, val => .ok (.vraw val)

/-- Registry lookup by flag name (first match), as `flag.FlagSet.Set` does. -/
def findByName (name : String) : List RegEntry → Option RegEntry
  | [] => none
  | e :: rest => if e.name = name then some e else findByName name rest

/-- Modelled from the spec: `Set(name, value)` on the flag collection — find
the registered flag and write the converted value through to the aliased
struct cell; unknown names are an error. -/
def flaggerSet (st : St) (name val : String) : Except String St :=
  match findByName name st.registry with
  | none => .error ("no such flag -" ++ name)
  | some e =>
    match setByKind e.kind val with
    | .error err => .error err
    | .ok v => .ok { st with store := (e.cell, v) :: st.store }

/-- The name loop of `loadEnv` (com.go:91-100): for each registered name look
up `envNorm(prefix + name)` in the environment and `Set` the flag when
present, wrapping any set error with name, value and key ("couldn't" written
without its apostrophe). -/
def loadEnvNames (env : List (String × String)) (pfx : String) :
    St → List String → Except String St
  | st, [] => .ok st
  | st, n :: rest =>
    match alookup (consultedEnvKey pfx n) env with
    | none => loadEnvNames env pfx st rest
    | some val =>
      match flaggerSet st n val with
      | .error err =>
        .error ("couldnt set " ++ n ++ " to " ++ val ++ " from env " ++
          consultedEnvKey pfx n ++ ": " ++ err)
      | .ok st' => loadEnvNames env pfx st' rest

/-- `loadEnv` (com.go:89-105): requires the `FlagNamer` capability, then
visits the registered names. -/
def loadEnvGo (fc : FCol) (env : List (String × String)) (pfx : String)
    (st : St) : Except String St :=
  if fc.hasNamer then loadEnvNames env pfx st (st.registry.map RegEntry.name)
  else .error "unable to load flags from environment: flagger does not implement FlagNamer"

/-- Modelled from the spec: `Parse(args)` of the external flag collection —
set each supplied (already tokenized) name/value pair in order, stopping at
the first failure. -/
def parseArgs : St → List (String × String) → Except String St
  | st, [] => .ok st
  | st, (n, v) :: rest =>
    match flaggerSet st n v with
    | .error e => .error e
    | .ok st' => parseArgs st' rest

/-- Error wrapping of each `LoadArgsEnv` step (`fmt.Errorf("...: %v", err)`). -/
def wrapErr {α : Type} (pre : String) : Except String α → Except String α
  | .error e => .error (pre ++ e)
  | .ok a => .ok a

/-- The external-config callback step of `LoadArgsEnv` (com.go:147-153): when
supplied, the callback may rewrite the struct's cells arbitrarily. -/
def cfgStep (cfg : Option (List (Nat × FlagVal) → Except String (List (Nat × FlagVal))))
    (st : St) : Except String St :=
  match cfg with
  | none => .ok st
  | some g =>
    match g st.store with
    | .error e => .error e
    | .ok store' => .ok { st with store := store' }

/-- `LoadArgsEnv` (com.go:131-165): bind flags, load environment, parse args,
run the callback, reload environment, re-parse args; each step's failure
aborts with a wrapped error naming the step. -/
def LoadArgsEnvGo (fc : FCol) (store : List (Nat × FlagVal)) (fields : GoFields)
    (args : List (String × String)) (envPfx : String)
    (env : List (String × String))
    (cfg : Option (List (Nat × FlagVal) → Except String (List (Nat × FlagVal)))) :
    Except String St :=
  (wrapErr "calling Flags: " (flagsStep fc store fields)).bind fun st1 =>
  (wrapErr "loading environment: " (loadEnvGo fc env envPfx st1)).bind fun st2 =>
  (wrapErr "parsing command line args: " (parseArgs st2 args)).bind fun st3 =>
  (wrapErr "executing external parsing func: " (cfgStep cfg st3)).bind fun st4 =>
  (wrapErr "reloading environment: " (loadEnvGo fc env envPfx st4)).bind fun st5 =>
  (wrapErr "reparsing command line args: " (parseArgs st5 args)).bind fun st6 =>
  .ok st6

/-- A character accepted by `flagTracker.short` as a shorthand letter. -/
def validShort (c : Char) : Prop := ¬(c = runeErrorChar ∨ utf8Width c > 1)

instance (c : Char) : Decidable (validShort c) :=
  inferInstanceAs (Decidable ¬(c = runeErrorChar ∨ utf8Width c > 1))

/-- How one binder step may change the state: the struct store is untouched,
the registry only grows at the end, claimed shorthand letters persist, and any
newly claimed letter is a valid shorthand character. -/
def walkEvolves (st st1 : St) : Prop :=
  st1.store = st.store ∧
  (∃ added, st1.registry = st.registry ++ added) ∧
  (∀ c, c ∈ st.shorts → c ∈ st1.shorts) ∧
  (∀ c, c ∈ st1.shorts → c ∈ st.shorts ∨ validShort c)

/-- Simultaneous induction over the mutual field/field-list inductive. -/
theorem goInduction {P : GoField → Prop} {Q : GoFields → Prop}
    (hatom : ∀ n e ft jt ht sg typ cl, P (.atom n e ft jt ht sg typ cl))
    (hstrukt : ∀ n e ft jt ht sg fields, Q fields → P (.strukt n e ft jt ht sg fields))
    (hnil : Q .nil)
    (hcons : ∀ f fs, P f → Q fs → Q (.cons f fs)) :
    (∀ f, P f) ∧ (∀ fs, Q fs) :=
  ⟨fun f => GoField.rec hatom hstrukt hnil hcons f,
   fun fs => GoFields.rec hatom hstrukt hnil hcons fs⟩

lemma ddLoop_nil (ret : List Char) (lu nu : Bool) : ddLoop ret lu nu [] = ret := rfl

lemma ddLoop_cons (ret : List Char) (lu nu : Bool) (c : Char) (rest : List Char) :
    ddLoop ret lu nu (c :: rest) =
      if c.isUpper then
        if ret.length = 0 || (lu && nuNext nu rest) then
          ddLoop (ret ++ [c.toLower]) true (nuNext nu rest) rest
        else
          ddLoop (ret ++ ['-', c.toLower]) true (nuNext nu rest) rest
      else
        ddLoop (ret ++ [c]) false (nuNext nu rest) rest := rfl

lemma dashSpec_some_cons (p c : Char) (rest : List Char) :
    dashSpec (some p) (c :: rest) =
      (if c.isUpper then
        (if p.isUpper && contUpper rest then [c.toLower] else ['-', c.toLower])
      else [c]) ++ dashSpec (some c) rest := rfl

lemma ddLoop_dashSpec :
    ∀ (l : List Char) (p : Char) (ret : List Char) (nu : Bool), ret ≠ [] →
      (∀ c rest, l = c :: rest → nu = c.isUpper) →
      ddLoop ret p.isUpper nu l = ret ++ dashSpec (some p) l := by
  intro l
  induction l with
  | nil =>
    intro p ret nu hret _
    simp [ddLoop_nil, dashSpec]
  | cons c rest ih =>
    intro p ret nu hret hnu
    have hc : nu = c.isUpper := hnu c rest rfl
    subst hc
    have hlen0 : decide (ret.length = 0) = false := by
      simp [List.length_eq_zero, hret]
    rw [ddLoop_cons, dashSpec_some_cons]
    cases rest with
    | nil =>
      cases hcu : c.isUpper with
      | true =>
        simp only [hcu, nuNext, contUpper, hlen0, Bool.false_or, if_true]
        cases hpu : p.isUpper <;>
          simp [hpu, ddLoop_nil, dashSpec]
      | false =>
        simp [hcu, ddLoop_nil, dashSpec]
    | cons d t =>
      have hstep : ∀ (ret' : List Char), ret' ≠ [] →
          ddLoop ret' c.isUpper d.isUpper (d :: t) =
            ret' ++ dashSpec (some c) (d :: t) := by
        intro ret' h
        exact ih c ret' d.isUpper h
          (fun c' rest' hEq => by injection hEq with h1 _; rw [h1])
      cases hcu : c.isUpper with
      | true =>
        simp only [hcu, nuNext, contUpper, hlen0, Bool.false_or, if_true]
        have h1 := hstep (ret ++ [c.toLower]) (by simp)
        have h2 := hstep (ret ++ ['-', c.toLower]) (by simp)
        rw [hcu] at h1 h2
        by_cases hb : (p.isUpper && d.isUpper) = true
        · rw [if_pos hb, if_pos hb, h1, List.append_assoc]
        · rw [if_neg hb, if_neg hb, h2, List.append_assoc]
      | false =>
        simp only [hcu, nuNext, Bool.false_eq_true, if_false]
        have h1 := hstep (ret ++ [c]) (by simp)
        rw [hcu] at h1
        rw [h1, List.append_assoc]

lemma downcaseAndDash_eq_spec (l : List Char) :
    downcaseAndDash l = downcaseAndDashSpec l := by
  cases l with
  | nil => rfl
  | cons c rest =>
    unfold downcaseAndDash downcaseAndDashSpec
    rw [ddLoop_cons]
    cases rest with
    | nil =>
      cases hcu : c.isUpper <;> simp [hcu, ddLoop_nil, dashSpec]
    | cons d t =>
      have hstep : ∀ (ret' : List Char), ret' ≠ [] →
          ddLoop ret' c.isUpper d.isUpper (d :: t) =
            ret' ++ dashSpec (some c) (d :: t) := by
        intro ret' h
        exact ddLoop_dashSpec (d :: t) c ret' d.isUpper h
          (fun c' rest' hEq => by injection hEq with h1 _; rw [h1])
      cases hcu : c.isUpper with
      | true =>
        simp only [hcu, nuNext, List.length_nil, decide_True, Bool.true_or,
          if_true]
        have h1 := hstep [c.toLower] (by simp)
        rw [hcu] at h1
        rw [List.nil_append, h1]
        simp [dashSpec, hcu]
      | false =>
        simp only [hcu, nuNext, Bool.false_eq_true, if_false]
        have h1 := hstep [c] (by simp)
        rw [hcu] at h1
        rw [List.nil_append, h1]
        simp [dashSpec, hcu]

/-- C4: the camel-to-dashed-lowercase transform agrees with the claim's
per-character rule (first character never dashed; an upper-case letter is
dash-free exactly when it continues an upper-case run that is not immediately
broken by a lower-case character), and in particular maps the five quoted
examples as stated. -/
theorem c4_downcaseAndDash :
    (∀ l : List Char, downcaseAndDash l = downcaseAndDashSpec l) ∧
    downcaseAndDashStr "HelloFriend" = "hello-friend" ∧
    downcaseAndDashStr "myURL" = "my-url" ∧
    downcaseAndDashStr "URLFinder" = "url-finder" ∧
    downcaseAndDashStr "AAA" = "aaa" ∧
    downcaseAndDashStr "IAmAToad" = "i-am-a-toad" := by
  refine ⟨downcaseAndDash_eq_spec, ?_, ?_, ?_, ?_, ?_⟩ <;> decide

lemma walkEvolves_refl (st : St) : walkEvolves st st :=
  ⟨rfl, ⟨[], by simp⟩, fun _ h => h, fun _ h => Or.inl h⟩

lemma walkEvolves_trans {s1 s2 s3 : St} (h1 : walkEvolves s1 s2)
    (h2 : walkEvolves s2 s3) : walkEvolves s1 s3 := by
  obtain ⟨hs, ⟨a, hr⟩, hm, hv⟩ := h1
  obtain ⟨hs', ⟨a', hr'⟩, hm', hv'⟩ := h2
  refine ⟨hs'.trans hs, ⟨a ++ a', by rw [hr', hr, List.append_assoc]⟩,
    fun c h => hm' c (hm c h), fun c h => ?_⟩
  rcases hv' c h with h' | h'
  · exact hv c h'
  · exact Or.inr h'

lemma registerFlag_evolves (fc : FCol) (st : St) (n sh : String) (k : ValueKind)
    (cl : Nat) (hp : String) : walkEvolves st (registerFlag fc st n sh k cl hp) :=
  ⟨rfl, ⟨_, rfl⟩, fun _ h => h, fun _ h => Or.inl h⟩

lemma shortFn_ok_evolves {stag : Option String} {shorts : List Char}
    {sh : String} {shorts' : List Char}
    (h : shortFn stag shorts = .ok (sh, shorts')) :
    (∀ c, c ∈ shorts → c ∈ shorts') ∧
    (∀ c, c ∈ shorts' → c ∈ shorts ∨ validShort c) := by
  cases stag with
  | none =>
    simp only [shortFn, Except.ok.injEq, Prod.mk.injEq] at h
    rw [← h.2]
    exact ⟨fun _ hx => hx, fun _ hx => Or.inl hx⟩
  | some s =>
    simp only [shortFn] at h
    cases hd : s.data with
    | nil =>
      rw [hd] at h
      simp only [Except.ok.injEq, Prod.mk.injEq] at h
      rw [← h.2]
      exact ⟨fun _ hx => hx, fun _ hx => Or.inl hx⟩
    | cons c cs =>
      rw [hd] at h
      dsimp only at h
      by_cases h1 : c = runeErrorChar ∨ utf8Width c > 1
      · rw [if_pos h1] at h
        exact absurd h (by simp)
      · rw [if_neg h1] at h
        by_cases h2 : c ∈ shorts
        · rw [if_pos h2] at h
          exact absurd h (by simp)
        · rw [if_neg h2] at h
          simp only [Except.ok.injEq, Prod.mk.injEq] at h
          rw [← h.2]
          constructor
          · exact fun x hx => List.mem_cons_of_mem _ hx
          · intro x hx
            rcases List.mem_cons.mp hx with rfl | hx
            · exact Or.inr h1
            · exact Or.inl hx

lemma walkAtom_evolves (fc : FCol) (st : St) (fname sh : String) (typ : AtomType)
    (cl : Nat) (hp pfx : String) :
    walkEvolves st (walkAtom fc st fname sh typ cl hp pfx).1 := by
  obtain ⟨pf, hn⟩ := fc
  cases pf <;> cases typ <;>
    first
    | exact registerFlag_evolves _ _ _ _ _ _ _
    | exact walkEvolves_refl _
    | (rename_i e; cases e <;>
        first
        | exact registerFlag_evolves _ _ _ _ _ _ _
        | exact walkEvolves_refl _)

lemma shortMid_evolves {st : St} {shorts' : List Char} {stag : Option String}
    {sh : String} (heq : shortFn stag st.shorts = .ok (sh, shorts')) :
    walkEvolves st { st with shorts := shorts' } := by
  obtain ⟨hm, hv⟩ := shortFn_ok_evolves heq
  exact ⟨rfl, ⟨[], by simp⟩, hm, hv⟩

theorem walk_evolves :
    (∀ f : GoField, ∀ (fc : FCol) (st : St) (pfx : String),
      walkEvolves st (walkField fc st pfx f).1) ∧
    (∀ fs : GoFields, ∀ (fc : FCol) (st : St) (pfx : String),
      walkEvolves st (walkFields fc st pfx fs).1) := by
  apply goInduction
  · intro n e ft jt ht sg typ cl fc st pfx
    simp only [walkField]
    split
    · split
      · exact walkEvolves_refl _
      · split
        · exact walkEvolves_refl _
        · next sh shorts' heq =>
          exact walkEvolves_trans (shortMid_evolves heq)
            (walkAtom_evolves _ _ _ _ _ _ _ _)
    · exact walkEvolves_refl _
  · intro n e ft jt ht sg fields ih fc st pfx
    simp only [walkField]
    split
    · split
      · exact walkEvolves_refl _
      · split
        · exact walkEvolves_refl _
        · next sh shorts' heq =>
          exact walkEvolves_trans (shortMid_evolves heq) (ih _ _ _)
    · exact walkEvolves_refl _
  · intro fc st pfx
    exact walkEvolves_refl _
  · intro f fs ihf ihfs fc st pfx
    simp only [walkFields]
    split
    · next st' e heq =>
      have h1 := ihf fc st pfx
      rw [heq] at h1
      exact h1
    · next st' heq =>
      have h1 := ihf fc st pfx
      rw [heq] at h1
      exact walkEvolves_trans h1 (ihfs fc st' pfx)

lemma walkFields_append (fc : FCol) (pfx : String) :
    ∀ (fs1 fs2 : GoFields) (st : St),
      walkFields fc st pfx (fs1.append fs2) =
        match walkFields fc st pfx fs1 with
        | (st', some e) => (st', some e)
        | (st', none) => walkFields fc st' pfx fs2 := by
  have h := goInduction (P := fun _ => True)
    (Q := fun fs1 => ∀ (fs2 : GoFields) (st : St),
      walkFields fc st pfx (fs1.append fs2) =
        match walkFields fc st pfx fs1 with
        | (st', some e) => (st', some e)
        | (st', none) => walkFields fc st' pfx fs2)
    (fun _ _ _ _ _ _ _ _ => trivial)
    (fun _ _ _ _ _ _ _ _ => trivial)
    ?_ ?_
  · exact h.2
  · intro fs2 st
    rfl
  · intro f fs _ ih fs2 st
    simp only [GoFields.append, walkFields]
    rcases hw : walkField fc st pfx f with ⟨st', e⟩
    cases e with
    | some err => rfl
    | none => exact ih fs2 st'

lemma findByName_eq_some {l : List RegEntry} {n : String} {e : RegEntry}
    (h : findByName n l = some e) : e ∈ l ∧ e.name = n := by
  induction l with
  | nil => simp [findByName] at h
  | cons x xs ih =>
    simp only [findByName] at h
    by_cases hx : x.name = n
    · rw [if_pos hx] at h
      obtain rfl : x = e := by injection h
      exact ⟨List.mem_cons_self _ _, hx⟩
    · rw [if_neg hx] at h
      obtain ⟨hm, hn'⟩ := ih h
      exact ⟨List.mem_cons_of_mem _ hm, hn'⟩

lemma findByName_self {l : List RegEntry} {e : RegEntry}
    (he : e ∈ l) (hnd : (l.map RegEntry.name).Nodup) :
    findByName e.name l = some e := by
  induction l with
  | nil => cases he
  | cons x xs ih =>
    simp only [List.map_cons, List.nodup_cons] at hnd
    obtain ⟨hx, hnd'⟩ := hnd
    rcases List.mem_cons.mp he with rfl | he'
    · simp [findByName]
    · have hne : ¬(x.name = e.name) := by
        intro hEq
        exact hx (hEq ▸ List.mem_map_of_mem RegEntry.name he')
      simp only [findByName, if_neg hne]
      exact ih he' hnd'

lemma alookup_eq_none {k : String} {l : List (String × String)}
    (h : k ∉ l.map Prod.fst) : alookup k l = none := by
  induction l with
  | nil => rfl
  | cons p rest ih =>
    obtain ⟨a, v⟩ := p
    simp only [List.map_cons, List.mem_cons] at h
    push_neg at h
    have hne : ¬(a = k) := fun hEq => h.1 hEq.symm
    simp only [alookup, if_neg hne]
    exact ih h.2

lemma flaggerSet_ok {st : St} {n v : String} {st' : St}
    (h : flaggerSet st n v = .ok st') :
    st'.registry = st.registry ∧ st'.shorts = st.shorts ∧
    ∃ e w, findByName n st.registry = some e ∧ setByKind e.kind v = .ok w ∧
      st'.store = (e.cell, w) :: st.store := by
  unfold flaggerSet at h
  split at h
  · exact absurd h (by simp)
  · next e hf =>
    split at h
    · exact absurd h (by simp)
    · next w hs =>
      simp only [Except.ok.injEq] at h
      subst h
      exact ⟨rfl, rfl, e, w, hf, hs, rfl⟩

lemma flaggerSet_cell_hit {st st' : St} {e : RegEntry} {v : String}
    (he : e ∈ st.registry) (hnd : (st.registry.map RegEntry.name).Nodup)
    (h : flaggerSet st e.name v = .ok st') :
    ∃ w, setByKind e.kind v = .ok w ∧ storeLookup e.cell st'.store = some w := by
  obtain ⟨_, _, e', w, hf, hs, hst⟩ := flaggerSet_ok h
  have hee : some e = some e' := (findByName_self he hnd).symm.trans hf
  obtain rfl : e = e' := by injection hee
  refine ⟨w, hs, ?_⟩
  rw [hst]
  simp [storeLookup]

lemma flaggerSet_cell_miss {st st' : St} {e : RegEntry} {n v : String}
    (he : e ∈ st.registry) (hndc : (st.registry.map RegEntry.cell).Nodup)
    (hne : n ≠ e.name)
    (h : flaggerSet st n v = .ok st') :
    storeLookup e.cell st'.store = storeLookup e.cell st.store := by
  obtain ⟨_, _, e', w, hf, hs, hst⟩ := flaggerSet_ok h
  obtain ⟨hmem', hname'⟩ := findByName_eq_some hf
  have hne' : e' ≠ e := fun hEq => hne (by rw [← hname', hEq])
  have hcell : ¬(e'.cell = e.cell) := by
    intro hc
    exact hne' (List.inj_on_of_nodup_map hndc hmem' he hc)
  rw [hst]
  simp [storeLookup, hcell]

lemma parseArgs_spec :
    ∀ (args : List (String × String)) (st st' : St) (e : RegEntry),
      parseArgs st args = .ok st' →
      (st.registry.map RegEntry.name).Nodup →
      (st.registry.map RegEntry.cell).Nodup →
      e ∈ st.registry →
      (args.map Prod.fst).Nodup →
      st'.registry = st.registry ∧ st'.shorts = st.shorts ∧
      (match alookup e.name args with
       | some v => ∃ w, setByKind e.kind v = .ok w ∧
           storeLookup e.cell st'.store = some w
       | none => storeLookup e.cell st'.store = storeLookup e.cell st.store) := by
  intro args
  induction args with
  | nil =>
    intro st st' e h _ _ _ _
    simp only [parseArgs, Except.ok.injEq] at h
    subst h
    exact ⟨rfl, rfl, rfl⟩
  | cons p rest ih =>
    intro st st' e h hndn hndc he hnda
    obtain ⟨n, v⟩ := p
    simp only [parseArgs] at h
    split at h
    · exact absurd h (by simp)
    · next st1 hset =>
      obtain ⟨hreg1, hsh1, _⟩ := flaggerSet_ok hset
      simp only [List.map_cons, List.nodup_cons] at hnda
      obtain ⟨hn_nin, hnda'⟩ := hnda
      have he1 : e ∈ st1.registry := hreg1 ▸ he
      have hndn1 : (st1.registry.map RegEntry.name).Nodup := by
        rw [hreg1]; exact hndn
      have hndc1 : (st1.registry.map RegEntry.cell).Nodup := by
        rw [hreg1]; exact hndc
      obtain ⟨hreg2, hsh2, hmatch⟩ := ih st1 st' e h hndn1 hndc1 he1 hnda'
      refine ⟨hreg2.trans hreg1, hsh2.trans hsh1, ?_⟩
      by_cases hEq : n = e.name
      · subst hEq
        simp only [alookup, if_pos rfl]
        obtain ⟨w, hw, hlook⟩ := flaggerSet_cell_hit he hndn hset
        have hnone : alookup e.name rest = none := alookup_eq_none hn_nin
        rw [hnone] at hmatch
        exact ⟨w, hw, hmatch.trans hlook⟩
      · have hne' : ¬(n = e.name) := hEq
        simp only [alookup, if_neg hne']
        have hmiss := flaggerSet_cell_miss he hndc hEq hset
        cases hal : alookup e.name rest with
        | some v' =>
          rw [hal] at hmatch
          exact hmatch
        | none =>
          rw [hal] at hmatch
          exact hmatch.trans hmiss

lemma loadEnvNames_spec (env : List (String × String)) (pfx : String) :
    ∀ (ns : List String) (st st' : St) (e : RegEntry),
      loadEnvNames env pfx st ns = .ok st' →
      (st.registry.map RegEntry.name).Nodup →
      (st.registry.map RegEntry.cell).Nodup →
      e ∈ st.registry →
      ns.Nodup →
      st'.registry = st.registry ∧ st'.shorts = st.shorts ∧
      (e.name ∉ ns →
        storeLookup e.cell st'.store = storeLookup e.cell st.store) ∧
      (e.name ∈ ns →
        match alookup (consultedEnvKey pfx e.name) env with
        | some v => ∃ w, setByKind e.kind v = .ok w ∧
            storeLookup e.cell st'.store = some w
        | none => storeLookup e.cell st'.store = storeLookup e.cell st.store) := by
  intro ns
  induction ns with
  | nil =>
    intro st st' e h _ _ _ _
    simp only [loadEnvNames, Except.ok.injEq] at h
    subst h
    exact ⟨rfl, rfl, fun _ => rfl, fun hmem => absurd hmem (List.not_mem_nil _)⟩
  | cons n rest ih =>
    intro st st' e h hndn hndc he hnd
    simp only [List.nodup_cons] at hnd
    obtain ⟨hnin, hnd'⟩ := hnd
    simp only [loadEnvNames] at h
    split at h
    · next henv =>
      obtain ⟨hreg, hsh, hmiss, hhit⟩ := ih st st' e h hndn hndc he hnd'
      refine ⟨hreg, hsh, ?_, ?_⟩
      · intro hnm
        exact hmiss (fun hm => hnm (List.mem_cons_of_mem _ hm))
      · intro hmem
        rcases List.mem_cons.mp hmem with hEq | hm
        · rw [hEq, henv]
          exact hmiss (hEq ▸ hnin)
        · exact hhit hm
    · next val henv =>
      split at h
      · exact absurd h (by simp)
      · next st1 hset =>
        obtain ⟨hreg1, hsh1, _⟩ := flaggerSet_ok hset
        have he1 : e ∈ st1.registry := hreg1 ▸ he
        have hndn1 : (st1.registry.map RegEntry.name).Nodup := by
          rw [hreg1]; exact hndn
        have hndc1 : (st1.registry.map RegEntry.cell).Nodup := by
          rw [hreg1]; exact hndc
        obtain ⟨hreg2, hsh2, hmiss2, hhit2⟩ := ih st1 st' e h hndn1 hndc1 he1 hnd'
        refine ⟨hreg2.trans hreg1, hsh2.trans hsh1, ?_, ?_⟩
        · intro hnm
          have hne : n ≠ e.name := fun hEq => hnm (hEq ▸ List.mem_cons_self _ _)
          have hmiss1 := flaggerSet_cell_miss he hndc hne hset
          exact (hmiss2 (fun hm => hnm (List.mem_cons_of_mem _ hm))).trans hmiss1
        · intro hmem
          rcases List.mem_cons.mp hmem with hEq | hm
          · rw [hEq, henv]
            obtain ⟨w, hw, hl⟩ := flaggerSet_cell_hit he hndn (hEq ▸ hset)
            have hrest : storeLookup e.cell st'.store = storeLookup e.cell st1.store :=
              hmiss2 (hEq ▸ hnin)
            exact ⟨w, hw, hrest.trans hl⟩
          · have hne : n ≠ e.name := fun hEq => hnin (hEq ▸ hm)
            have hmiss1 := flaggerSet_cell_miss he hndc hne hset
            cases hal : alookup (consultedEnvKey pfx e.name) env with
            | some v' =>
              have hx := hhit2 hm
              rw [hal] at hx
              exact hx
            | none =>
              have hx := hhit2 hm
              rw [hal] at hx
              dsimp only at hx ⊢
              exact hx.trans hmiss1

lemma loadEnvGo_spec {fc : FCol} {env : List (String × String)} {pfx : String}
    {st st' : St} {e : RegEntry}
    (h : loadEnvGo fc env pfx st = .ok st')
    (hndn : (st.registry.map RegEntry.name).Nodup)
    (hndc : (st.registry.map RegEntry.cell).Nodup)
    (he : e ∈ st.registry) :
    st'.registry = st.registry ∧ st'.shorts = st.shorts ∧
    (match alookup (consultedEnvKey pfx e.name) env with
     | some v => ∃ w, setByKind e.kind v = .ok w ∧
         storeLookup e.cell st'.store = some w
     | none => storeLookup e.cell st'.store = storeLookup e.cell st.store) := by
  unfold loadEnvGo at h
  split at h
  · obtain ⟨hreg, hsh, _, hhit⟩ :=
      loadEnvNames_spec env pfx (st.registry.map RegEntry.name) st st' e h
        hndn hndc he hndn
    exact ⟨hreg, hsh, hhit (List.mem_map_of_mem _ he)⟩
  · exact absurd h (by simp)

lemma sappend_assoc (a b c : String) : a ++ b ++ c = a ++ (b ++ c) := by
  apply String.ext
  simp only [String.data_append, List.append_assoc]

lemma dotJoin_ne_empty (a b : String) : a ++ "." ++ b ≠ "" := by
  intro h
  have hd : (a ++ "." ++ b).data = ([] : List Char) := by rw [h]
  rw [String.data_append, String.data_append] at hd
  have hdot : (("." : String)).data = ['.'] := rfl
  rw [hdot] at hd
  simp at hd

lemma envNorm_append (a b : String) : envNorm (a ++ b) = envNorm a ++ envNorm b := by
  apply String.ext
  show envNormL (a ++ b).data = (envNorm a ++ envNorm b).data
  rw [String.data_append, String.data_append]
  show envNormL (a.data ++ b.data) = envNormL a.data ++ envNormL b.data
  simp [envNormL, List.map_append]

lemma walkAtom_registry_names (fc : FCol) (st : St) (fname sh : String)
    (typ : AtomType) (cl : Nat) (hp pfx : String) :
    ∀ e ∈ (walkAtom fc st fname sh typ cl hp pfx).1.registry,
      e ∈ st.registry ∨ e.name = fname := by
  obtain ⟨pf, hn⟩ := fc
  have hreg : ∀ (k : ValueKind) (e : RegEntry),
      e ∈ (registerFlag ⟨pf, hn⟩ st fname sh k cl hp).registry →
      e ∈ st.registry ∨ e.name = fname := by
    intro k e he
    rcases List.mem_append.mp he with h | h
    · exact Or.inl h
    · obtain rfl := List.mem_singleton.mp h
      exact Or.inr rfl
  cases pf <;> cases typ <;>
    first
    | (intro e he; exact hreg _ e he)
    | (intro e he; exact Or.inl he)
    | (rename_i el
       cases el <;>
         first
         | (intro e he; exact hreg _ e he)
         | (intro e he; exact Or.inl he))

theorem walk_names :
    (∀ f : GoField, ∀ (fc : FCol) (st : St) (pfx : String), pfx ≠ "" →
      ∀ e ∈ (walkField fc st pfx f).1.registry,
        e ∈ st.registry ∨ ∃ t, e.name = pfx ++ "." ++ t) ∧
    (∀ fs : GoFields, ∀ (fc : FCol) (st : St) (pfx : String), pfx ≠ "" →
      ∀ e ∈ (walkFields fc st pfx fs).1.registry,
        e ∈ st.registry ∨ ∃ t, e.name = pfx ++ "." ++ t) := by
  apply goInduction
  · intro n ex ft jt ht sg typ cl fc st pfx hp e he
    simp only [walkField, if_neg hp] at he
    split at he
    · split at he
      · exact Or.inl he
      · split at he
        · exact Or.inl he
        · next sh shorts' heq =>
          rcases walkAtom_registry_names _ _ _ _ _ _ _ _ e he with h | h
          · exact Or.inl h
          · exact Or.inr ⟨_, h⟩
    · exact Or.inl he
  · intro n ex ft jt ht sg fields ih fc st pfx hp e he
    simp only [walkField, if_neg hp] at he
    by_cases hex : fieldExported (GoField.strukt n ex ft jt ht sg fields) = true
    case neg =>
      rw [if_neg hex] at he
      exact Or.inl he
    case pos =>
    rw [if_pos hex] at he
    by_cases hig : (flagNameOf (GoField.strukt n ex ft jt ht sg fields) = "-" ∨
        flagNameOf (GoField.strukt n ex ft jt ht sg fields) = "")
    · rw [if_pos hig] at he
      exact Or.inl he
    · rw [if_neg hig] at he
      rcases hs : shortFn (fieldShortTag (GoField.strukt n ex ft jt ht sg fields))
          st.shorts with er | ⟨sh, shorts'⟩
      · rw [hs] at he
        dsimp only at he
        exact Or.inl he
      · rw [hs] at he
        dsimp only at he
        by_cases hemb : (pfx ++ "." ++
            flagNameOf (GoField.strukt n ex ft jt ht sg fields)) = "!embed"
        · rw [if_pos hemb] at he
          rcases ih fc ⟨st.registry, shorts', st.store⟩ pfx hp e he with h | h
          · exact Or.inl h
          · exact Or.inr h
        · rw [if_neg hemb] at he
          rcases ih fc ⟨st.registry, shorts', st.store⟩ _
              (dotJoin_ne_empty _ _) e he with h | h
          · exact Or.inl h
          · obtain ⟨t, ht'⟩ := h
            refine Or.inr
              ⟨flagNameOf (GoField.strukt n ex ft jt ht sg fields) ++ "." ++ t, ?_⟩
            rw [ht']
            simp only [sappend_assoc]
  · intro fc st pfx hp e he
    exact Or.inl he
  · intro f fs ihf ihfs fc st pfx hp e he
    simp only [walkFields] at he
    split at he
    · next st' er heq =>
      exact ihf fc st pfx hp e (by rw [heq]; exact he)
    · next st' heq =>
      rcases ihfs fc st' pfx hp e he with h | h
      · exact ihf fc st pfx hp e (by rw [heq]; exact h)
      · exact Or.inr h

lemma evolves_shorts_of_eq {st st1 : St} {r : Option String} {p : St × Option String}
    (hev : walkEvolves st p.1) (hw : p = (st1, r)) :
    ∀ c, c ∈ st.shorts → c ∈ st1.shorts := by
  subst hw
  exact hev.2.2.1

lemma shortFn_ok_cons {t : String} {c : Char} {cs : List Char} {shorts : List Char}
    {sh : String} {shorts' : List Char}
    (ht : t.data = c :: cs)
    (hs : shortFn (some t) shorts = .ok (sh, shorts')) :
    sh = t ∧ shorts' = c :: shorts := by
  simp only [shortFn] at hs
  rw [ht] at hs
  dsimp only at hs
  by_cases h1 : c = runeErrorChar ∨ utf8Width c > 1
  · rw [if_pos h1] at hs
    exact absurd hs (by simp)
  · rw [if_neg h1] at hs
    by_cases h2 : c ∈ shorts
    · rw [if_pos h2] at hs
      exact absurd hs (by simp)
    · rw [if_neg h2] at hs
      simp only [Except.ok.injEq, Prod.mk.injEq] at hs
      exact ⟨hs.1.symm, hs.2.symm⟩

lemma walkField_claims_short {fc : FCol} {st st1 : St} {pfx : String} {f : GoField}
    {t : String} {c : Char} {cs : List Char}
    (hw : walkField fc st pfx f = (st1, none))
    (hex : fieldExported f = true)
    (hig1 : flagNameOf f ≠ "-") (hig2 : flagNameOf f ≠ "")
    (hst : fieldShortTag f = some t)
    (ht : t.data = c :: cs) :
    c ∈ st1.shorts := by
  simp only [walkField] at hw
  rw [if_pos hex, if_neg (fun h => h.elim hig1 hig2)] at hw
  rcases hs : shortFn (fieldShortTag f) st.shorts with er | ⟨sh, shorts'⟩
  · rw [hs] at hw
    dsimp only at hw
    exact absurd hw (by simp)
  · rw [hs] at hw
    dsimp only at hw
    rw [hst] at hs
    obtain ⟨-, hcons⟩ := shortFn_ok_cons ht hs
    have hcmem : c ∈ shorts' := by
      rw [hcons]
      exact List.mem_cons_self _ _
    cases f with
    | atom n2 ex2 ft2 jt2 ht2 sg2 typ2 cl2 =>
      dsimp only at hw
      exact evolves_shorts_of_eq (walkAtom_evolves _ _ _ _ _ _ _ _) hw c hcmem
    | strukt n2 ex2 ft2 jt2 ht2 sg2 fields2 =>
      dsimp only at hw
      exact evolves_shorts_of_eq (walk_evolves.2 _ _ _ _) hw c hcmem

lemma walkField_short_collision {fc : FCol} {st : St} {pfx : String} {f : GoField}
    {t : String} {c : Char} {cs : List Char}
    (hex : fieldExported f = true)
    (hig1 : flagNameOf f ≠ "-") (hig2 : flagNameOf f ≠ "")
    (hst : fieldShortTag f = some t)
    (ht : t.data = c :: cs)
    (hval : validShort c)
    (hmem : c ∈ st.shorts) :
    walkField fc st pfx f =
      (st, some ("getting shorthand for " ++ fieldName f ++ ": " ++
        (t ++ " has already been used."))) := by
  have hshort : shortFn (fieldShortTag f) st.shorts =
      .error (t ++ " has already been used.") := by
    rw [hst]
    simp only [shortFn]
    rw [ht]
    dsimp only
    rw [if_neg hval, if_pos hmem]
  simp only [walkField]
  rw [if_pos hex, if_neg (fun h => h.elim hig1 hig2), hshort]

lemma walkFields_append_ok {fc : FCol} {pfx : String} {fs1 fs2 : GoFields}
    {st st' : St}
    (h : walkFields fc st pfx (fs1.append fs2) = (st', none)) :
    ∃ stm, walkFields fc st pfx fs1 = (stm, none) ∧
      walkFields fc stm pfx fs2 = (st', none) := by
  rw [walkFields_append] at h
  rcases hw : walkFields fc st pfx fs1 with ⟨stm, e⟩
  rw [hw] at h
  cases e with
  | some er =>
    dsimp only at h
    exact absurd h (by simp)
  | none =>
    dsimp only at h
    exact ⟨stm, rfl, h⟩

lemma walkFields_cons_ok {fc : FCol} {pfx : String} {f : GoField} {fs : GoFields}
    {st st' : St}
    (h : walkFields fc st pfx (.cons f fs) = (st', none)) :
    ∃ stm, walkField fc st pfx f = (stm, none) ∧
      walkFields fc stm pfx fs = (st', none) := by
  simp only [walkFields] at h
  rcases hw : walkField fc st pfx f with ⟨stm, e⟩
  rw [hw] at h
  cases e with
  | some er =>
    dsimp only at h
    exact absurd h (by simp)
  | none =>
    dsimp only at h
    exact ⟨stm, rfl, h⟩

lemma cfgStep_ok {cfg : Option (List (Nat × FlagVal) → Except String (List (Nat × FlagVal)))}
    {st st' : St} (h : cfgStep cfg st = .ok st') :
    st'.registry = st.registry ∧ st'.shorts = st.shorts := by
  unfold cfgStep at h
  split at h
  · simp only [Except.ok.injEq] at h
    subst h
    exact ⟨rfl, rfl⟩
  · split at h
    · exact absurd h (by simp)
    · simp only [Except.ok.injEq] at h
      subst h
      exact ⟨rfl, rfl⟩

/-- Claim C5: a field tagged flag:"-" (or whose resolved flag name is empty)
is skipped before shorthand resolution and before type dispatch: processing it
leaves the state exactly unchanged (no registry entry, no claimed shorthand
letter, no error), at any prefix, in any walk. -/
theorem c5_ignored_field_skipped (fc : FCol) (st : St) (pfx : String)
    (f : GoField) (h : flagNameOf f = "-" ∨ flagNameOf f = "") :
    walkField fc st pfx f = (st, none) := by
  simp only [walkField]
  by_cases hex : fieldExported f = true
  · rw [if_pos hex, if_pos h]
  · rw [if_neg hex]

/-- Witness for C5 at a concrete ignored field. -/
theorem c5_witness :
    walkField ⟨true, true⟩ (initSt []) ""
      (.atom "Bing" true (some "-") none (some "shouldnt happen") none .stringK 0) =
    (initSt [], none) :=
  c5_ignored_field_skipped ⟨true, true⟩ (initSt []) ""
    (.atom "Bing" true (some "-") none (some "shouldnt happen") none .stringK 0)
    (Or.inl rfl)

/-- Claim C2: `stringSliceValue.Set` replaces the slice with the supplied
value split on commas, for every prior contents (so two successive sets are
the second alone), and on the flag collection a single `Set(name, "a,b,c")` of
a kstrslice-bound field leaves the aliased cell exactly ["a","b","c"]. -/
theorem c2_stringSlice_replace (prev : List String) (v1 v2 : String) (st : St)
    (e : RegEntry) (nm : String)
    (hf : findByName nm st.registry = some e)
    (hk : e.kind = .kstrslice) :
    stringSliceSet prev "a,b,c" = ["a", "b", "c"] ∧
    stringSliceSet prev v2 = splitCommaStr v2 ∧
    stringSliceSet (stringSliceSet prev v1) v2 = stringSliceSet prev v2 ∧
    ∃ st', flaggerSet st nm "a,b,c" = .ok st' ∧
      storeLookup e.cell st'.store = some (.vstrslice ["a", "b", "c"]) := by
  refine ⟨rfl, rfl, rfl,
    { st with store := (e.cell, FlagVal.vstrslice ["a", "b", "c"]) :: st.store },
    ?_, ?_⟩
  · unfold flaggerSet
    rw [hf]
    dsimp only
    rw [hk]
    rfl
  · simp [storeLookup]

/-- Witness for C2 at the README's string-slice scenario. -/
theorem c2_witness :
    stringSliceSet ["hey", "there"] "a,b,c" = ["a", "b", "c"] ∧
    stringSliceSet ["hey", "there"] "x" = splitCommaStr "x" ∧
    stringSliceSet (stringSliceSet ["hey", "there"] "p,q") "x" =
      stringSliceSet ["hey", "there"] "x" ∧
    ∃ st', flaggerSet ⟨[⟨"nine", "", .kstrslice, .vstrslice ["hey", "there"], 0, ""⟩],
        ['h'], [(0, FlagVal.vstrslice ["hey", "there"])]⟩ "nine" "a,b,c" = .ok st' ∧
      storeLookup 0 st'.store = some (.vstrslice ["a", "b", "c"]) :=
  c2_stringSlice_replace ["hey", "there"] "p,q" "x"
    ⟨[⟨"nine", "", .kstrslice, .vstrslice ["hey", "there"], 0, ""⟩],
      ['h'], [(0, FlagVal.vstrslice ["hey", "there"])]⟩
    ⟨"nine", "", .kstrslice, .vstrslice ["hey", "there"], 0, ""⟩ "nine"
    (by decide) (by decide)

/-- Claim C3 is false as stated: the loader's key is `envNorm(prefix + name)`,
so the normalization hits the prefix as well.  With prefix "a-" and flag "b"
the consulted key is "A_B", not the claim's "a-" ++ "B": an environment entry
under the claim's key is not read. -/
theorem c3_counterexample :
    loadEnvGo ⟨false, true⟩ [("a-B", "CLAIMVAL")] "a-"
      ⟨[⟨"b", "", .kstr, .vstr "x", 0, ""⟩], ['h'], [(0, FlagVal.vstr "x")]⟩ =
      .ok ⟨[⟨"b", "", .kstr, .vstr "x", 0, ""⟩], ['h'], [(0, FlagVal.vstr "x")]⟩ ∧
    consultedEnvKey "a-" "b" = "A_B" ∧
    ("A_B" : String) ≠ "a-" ++ envNorm "b" := by
  refine ⟨rfl, rfl, by decide⟩

/-- Claim C3 (amended): the environment key is the *whole* concatenation
prefix++name put through envNorm — equivalently the transformed prefix
followed by the transformed name, where the transform upper-cases and maps
dash/dot to underscore character by character. -/
theorem c3_envKey_transforms_whole_string (pfx nm : String) :
    consultedEnvKey pfx nm = envNorm pfx ++ envNorm nm ∧
    (envNorm nm).data = nm.data.map (fun c => (replaceDashDot c).toUpper) := by
  constructor
  · exact envNorm_append pfx nm
  · show envNormL nm.data = _
    simp [envNormL, List.map_map, Function.comp]

/-- Claim C6 is false as stated for []string: a literal []string field binds
successfully against a basic (non-PFlagger) collection through the
replace-semantics adapter instead of erroring. -/
theorem c6_counterexample :
    walkFields ⟨false, true⟩ (initSt [(0, FlagVal.vstrslice ["hey", "there"])]) ""
      (.cons (.atom "AStringSlice" true none none none none .stringSliceT 0) .nil) =
    (⟨[⟨"a-string-slice", "", .kstrslice, .vstrslice ["hey", "there"], 0, ""⟩],
      ['h'], [(0, FlagVal.vstrslice ["hey", "there"])]⟩, none) := rfl

/-- Claim C6 (amended): slice fields reaching the reflect.Slice dispatch
(bool, int, uint and string element kinds) error against a basic collection
and bind against a rich one; a literal []string field is instead caught by the
concrete-type case and always binds with the comma-split replacing kind,
regardless of capability. -/
theorem c6_slice_capability (st : St) (fname sh : String) (cl : Nat)
    (hp pfx : String) (el : ElemKind) (hn : Bool) (hel : el ≠ .otherE) :
    (walkAtom ⟨false, hn⟩ st fname sh (.sliceK el) cl hp pfx =
      (st, some ("cannot support slice field at " ++ fname ++
        " with stdlib flag pkg."))) ∧
    (walkAtom ⟨true, hn⟩ st fname sh (.sliceK el) cl hp pfx =
      (registerFlag ⟨true, hn⟩ st fname sh .kraw cl hp, none)) ∧
    (∀ pf, walkAtom ⟨pf, hn⟩ st fname sh .stringSliceT cl hp pfx =
      (registerFlag ⟨pf, hn⟩ st fname sh .kstrslice cl hp, none)) := by
  refine ⟨rfl, ?_, fun pf => rfl⟩
  cases el
  · rfl
  · rfl
  · rfl
  · rfl
  · exact absurd rfl hel

/-- Witness for C6 (amended) at a []bool field. -/
theorem c6_witness :
    (walkAtom ⟨false, true⟩ (initSt []) "a-bool-slice" "" (.sliceK .boolE) 0 "" "" =
      (initSt [], some ("cannot support slice field at " ++ "a-bool-slice" ++
        " with stdlib flag pkg."))) ∧
    (walkAtom ⟨true, true⟩ (initSt []) "a-bool-slice" "" (.sliceK .boolE) 0 "" "" =
      (registerFlag ⟨true, true⟩ (initSt []) "a-bool-slice" "" .kraw 0 "", none)) ∧
    (∀ pf, walkAtom ⟨pf, true⟩ (initSt []) "a-bool-slice" "" .stringSliceT 0 "" "" =
      (registerFlag ⟨pf, true⟩ (initSt []) "a-bool-slice" "" .kstrslice 0 "", none)) :=
  c6_slice_capability (initSt []) "a-bool-slice" "" 0 "" "" .boolE true (by decide)

/-- Claim C7 is false as stated: the two-character ASCII tag short:"ab" does
not fail — binding succeeds, claims the letter a, and registers the whole
string "ab" as the shorthand. -/
theorem c7_counterexample :
    walkFields ⟨true, true⟩ (initSt [(0, FlagVal.vbool false)]) ""
      (.cons (.atom "Abool" true (some "a-bool") none none (some "ab") .boolK 0)
        .nil) =
    (⟨[⟨"a-bool", "ab", .kbool, .vbool false, 0, ""⟩], ['a', 'h'],
      [(0, FlagVal.vbool false)]⟩, none) := rfl

/-- Claim C7 (amended): an explicitly empty short tag yields no shorthand and
no error; a non-empty tag fails with the invalid-character error exactly when
its first character is the replacement character or not a single-byte (ASCII)
character — a multi-character tag with a valid ASCII first character is
accepted whole, claiming that first character (or failing as a duplicate);
the invalid-character failure aborts the walk with the field named. -/
theorem c7_short_tag_validation (s : String) (c : Char) (cs : List Char)
    (shorts : List Char) (ht : s.data = c :: cs) :
    (shortFn (some "") shorts = .ok ("", shorts)) ∧
    ((c = runeErrorChar ∨ utf8Width c > 1) →
      shortFn (some s) shorts =
        .error (s ++ " is not a valid single ascii character.")) ∧
    (validShort c → c ∉ shorts → shortFn (some s) shorts = .ok (s, c :: shorts)) ∧
    (validShort c → c ∈ shorts →
      shortFn (some s) shorts = .error (s ++ " has already been used.")) ∧
    (∀ (fc : FCol) (st : St) (pfx : String) (f : GoField),
      fieldExported f = true → flagNameOf f ≠ "-" → flagNameOf f ≠ "" →
      fieldShortTag f = some s → (c = runeErrorChar ∨ utf8Width c > 1) →
      walkField fc st pfx f = (st, some ("getting shorthand for " ++
        fieldName f ++ ": " ++ (s ++ " is not a valid single ascii character.")))) := by
  have hbadFn : ∀ hbad : c = runeErrorChar ∨ utf8Width c > 1,
      shortFn (some s) shorts =
        .error (s ++ " is not a valid single ascii character.") := by
    intro hbad
    simp only [shortFn]
    rw [ht]
    dsimp only
    rw [if_pos hbad]
  refine ⟨rfl, hbadFn, ?_, ?_, ?_⟩
  · intro hval hnm
    simp only [shortFn]
    rw [ht]
    dsimp only
    rw [if_neg hval, if_neg hnm]
  · intro hval hm
    simp only [shortFn]
    rw [ht]
    dsimp only
    rw [if_neg hval, if_pos hm]
  · intro fc st pfx f hex hig1 hig2 hst hbad
    have hfn : shortFn (fieldShortTag f) st.shorts =
        .error (s ++ " is not a valid single ascii character.") := by
      rw [hst]
      simp only [shortFn]
      rw [ht]
      dsimp only
      rw [if_pos hbad]
    simp only [walkField]
    rw [if_pos hex, if_neg (fun h => h.elim hig1 hig2), hfn]

/-- Witness for C7 (amended) at the tag "ab" and a non-ASCII tag head. -/
theorem c7_witness :
    (shortFn (some "") ['h'] = .ok ("", ['h'])) ∧
    (validShort 'a' → 'a' ∉ ['h'] → shortFn (some "ab") ['h'] = .ok ("ab", 'a' :: ['h'])) ∧
    shortFn (some "ab") ['h'] = .ok ("ab", ['a', 'h']) := by
  have h := c7_short_tag_validation "ab" 'a' ['b'] ['h'] rfl
  exact ⟨h.1, fun hv hn => h.2.2.1 hv hn, h.2.2.1 (by decide) (by decide)⟩

/-- Claim C8: when the first character of a field's explicit short tag is
already claimed — either because an earlier processed field carried a tag with
the same first letter, or because it is the help letter h, claimed before any
field is processed — the walk aborts at that field with the already-used error
naming the reused tag. -/
theorem c8_shorthand_collision
    (fc : FCol) (store : List (Nat × FlagVal)) (fs1 rest : GoFields)
    (f2 : GoField) (st1 : St) (t : String) (c : Char) (cs : List Char)
    (hw : walkFields fc (initSt store) "" fs1 = (st1, none))
    (hex : fieldExported f2 = true)
    (hig1 : flagNameOf f2 ≠ "-") (hig2 : flagNameOf f2 ≠ "")
    (hst : fieldShortTag f2 = some t)
    (ht : t.data = c :: cs)
    (hsrc : c = 'h' ∨
      ∃ (fsA fsB : GoFields) (f1 : GoField) (t1 : String) (cs1 : List Char),
        fs1 = fsA.append (.cons f1 fsB) ∧ fieldExported f1 = true ∧
        flagNameOf f1 ≠ "-" ∧ flagNameOf f1 ≠ "" ∧
        fieldShortTag f1 = some t1 ∧ t1.data = c :: cs1) :
    walkFields fc (initSt store) "" (fs1.append (.cons f2 rest)) =
      (st1, some ("getting shorthand for " ++ fieldName f2 ++ ": " ++
        (t ++ " has already been used."))) := by
  have hev := walk_evolves.2 fs1 fc (initSt store) ""
  rw [hw] at hev
  have hmem : c ∈ st1.shorts := by
    rcases hsrc with rfl | ⟨fsA, fsB, f1, t1, cs1, hfs, hex1, hig11, hig12, hst1, ht1⟩
    · exact hev.2.2.1 'h' (by simp [initSt])
    · subst hfs
      obtain ⟨stA, hA, hrest⟩ := walkFields_append_ok hw
      obtain ⟨stB, hB, hC⟩ := walkFields_cons_ok hrest
      have hcB : c ∈ stB.shorts := walkField_claims_short hB hex1 hig11 hig12 hst1 ht1
      have hevB := walk_evolves.2 fsB fc stB ""
      rw [hC] at hevB
      exact hevB.2.2.1 c hcB
  have hval : validShort c := by
    rcases hev.2.2.2 c hmem with h | h
    · have hch : c = 'h' := by simpa [initSt] using h
      rw [hch]
      decide
    · exact h
  rw [walkFields_append, hw]
  dsimp only
  simp only [walkFields]
  rw [walkField_short_collision hex hig1 hig2 hst ht hval hmem]

/-- Witness for C8: two fields tagged short:"b" collide on the second. -/
theorem c8_witness :
    walkFields ⟨true, true⟩ (initSt [])
      ""
      ((GoFields.cons (.atom "A" true (some "aflag") none none (some "b") .boolK 0)
        .nil).append
        (.cons (.atom "B" true (some "bflag") none none (some "b") .boolK 1) .nil)) =
    (⟨[⟨"aflag", "b", .kbool, .vraw "", 0, ""⟩], ['b', 'h'], []⟩,
      some ("getting shorthand for " ++ "B" ++ ": " ++
        ("b" ++ " has already been used."))) :=
  c8_shorthand_collision ⟨true, true⟩ []
    (.cons (.atom "A" true (some "aflag") none none (some "b") .boolK 0) .nil)
    .nil
    (.atom "B" true (some "bflag") none none (some "b") .boolK 1)
    ⟨[⟨"aflag", "b", .kbool, .vraw "", 0, ""⟩], ['b', 'h'], []⟩
    "b" 'b' []
    (by decide) rfl (by decide) (by decide) rfl rfl
    (Or.inr ⟨.nil, .nil,
      .atom "A" true (some "aflag") none none (some "b") .boolK 0,
      "b", [], rfl, rfl, by decide, by decide, rfl, rfl⟩)

/-- Claim C9 is false as stated: a nested struct field whose flag name is the
marker "!embed" is flattened into the parent namespace — its inner bool
registers as "x", not "!embed.x". -/
theorem c9_counterexample :
    (walkFields ⟨true, true⟩ (initSt [(0, FlagVal.vbool true)]) ""
      (.cons (.strukt "E" true (some "!embed") none none none
        (.cons (.atom "X" true (some "x") none none none .boolK 0) .nil))
        .nil)).1.registry.map RegEntry.name = ["x"] ∧
    ("x" : String) ≠ "!embed" ++ "." ++ "x" := by
  exact ⟨rfl, by decide⟩

/-- Claim C9 (amended): for every nested struct field whose (prefixed) flag
name is not the transparent marker "!embed", the binder recurses with exactly
the dot-joined name as the new prefix; every flag registered by a walk under a
non-empty prefix p that was not already present is named p.<something>; and in
particular a bool tagged flag:"a-bool" inside a struct bound under subthing
registers as subthing.a-bool. -/
theorem c9_nested_dotted_names :
    (∀ (fc : FCol) (st : St) (pfx n : String) (ex : Bool)
      (ft jt htg sg : Option String) (fields : GoFields) (sh : String)
      (shorts' : List Char),
      fieldExported (GoField.strukt n ex ft jt htg sg fields) = true →
      flagNameOf (GoField.strukt n ex ft jt htg sg fields) ≠ "-" →
      flagNameOf (GoField.strukt n ex ft jt htg sg fields) ≠ "" →
      shortFn sg st.shorts = .ok (sh, shorts') →
      (if pfx = "" then flagNameOf (GoField.strukt n ex ft jt htg sg fields)
       else pfx ++ "." ++ flagNameOf (GoField.strukt n ex ft jt htg sg fields))
        ≠ "!embed" →
      walkField fc st pfx (GoField.strukt n ex ft jt htg sg fields) =
        walkFields fc ⟨st.registry, shorts', st.store⟩
          (if pfx = "" then flagNameOf (GoField.strukt n ex ft jt htg sg fields)
           else pfx ++ "." ++ flagNameOf (GoField.strukt n ex ft jt htg sg fields))
          fields) ∧
    (∀ (fs : GoFields) (fc : FCol) (st : St) (pfx : String), pfx ≠ "" →
      ∀ e ∈ (walkFields fc st pfx fs).1.registry,
        e ∈ st.registry ∨ ∃ t, e.name = pfx ++ "." ++ t) ∧
    ((walkFields ⟨true, true⟩ (initSt [(0, FlagVal.vbool true)]) ""
      (.cons (.strukt "SubThing" true (some "subthing") none none none
        (.cons (.atom "SubBool" true (some "a-bool") none
          (some "nested boolean flag") none .boolK 0) .nil))
        .nil)).1.registry.map RegEntry.name = ["subthing.a-bool"]) := by
  refine ⟨?_, walk_names.2, rfl⟩
  intro fc st pfx n ex ft jt htg sg fields sh shorts' hex hig1 hig2 hs hemb
  simp only [walkField, fieldShortTag]
  rw [if_pos hex, if_neg (fun h => h.elim hig1 hig2), hs]
  dsimp only
  rw [if_neg hemb]

/-- Witness for C9 (amended) at the subthing example. -/
theorem c9_witness :
    walkField ⟨true, true⟩ (initSt [(0, FlagVal.vbool true)]) ""
      (.strukt "SubThing" true (some "subthing") none none none
        (.cons (.atom "SubBool" true (some "a-bool") none
          (some "nested boolean flag") none .boolK 0) .nil)) =
      walkFields ⟨true, true⟩
        ⟨(initSt [(0, FlagVal.vbool true)]).registry, ['h'],
          (initSt [(0, FlagVal.vbool true)]).store⟩
        (if ("" : String) = "" then
          flagNameOf (GoField.strukt "SubThing" true (some "subthing") none none none
            (.cons (.atom "SubBool" true (some "a-bool") none
              (some "nested boolean flag") none .boolK 0) .nil))
         else "" ++ "." ++
          flagNameOf (GoField.strukt "SubThing" true (some "subthing") none none none
            (.cons (.atom "SubBool" true (some "a-bool") none
              (some "nested boolean flag") none .boolK 0) .nil)))
        (.cons (.atom "SubBool" true (some "a-bool") none
          (some "nested boolean flag") none .boolK 0) .nil) :=
  c9_nested_dotted_names.1 ⟨true, true⟩ (initSt [(0, FlagVal.vbool true)]) ""
    "SubThing" true (some "subthing") none none none
    (.cons (.atom "SubBool" true (some "a-bool") none
      (some "nested boolean flag") none .boolK 0) .nil)
    "" ['h'] rfl (by decide) (by decide) rfl (by decide)

/-- Claim C10: the binding walk is read-only on the config struct: whether it
returns success or an error, the resulting state has the very same store, the
registry only extended at the end, and all previously claimed shorthand
letters still claimed. -/
theorem c10_binding_frame (fc : FCol) (st : St) (pfx : String) (fs : GoFields) :
    ((walkFields fc st pfx fs).1).store = st.store ∧
    (∃ added, ((walkFields fc st pfx fs).1).registry = st.registry ++ added) ∧
    (∀ c, c ∈ st.shorts → c ∈ ((walkFields fc st pfx fs).1).shorts) := by
  obtain ⟨h1, h2, h3, _⟩ := walk_evolves.2 fs fc st pfx
  exact ⟨h1, h2, h3⟩

/-- Witness for C10 at a concrete two-field struct. -/
theorem c10_witness :
    ((walkFields ⟨true, true⟩ (initSt [(0, FlagVal.vstr "blahhh")]) ""
      (.cons (.atom "Thing" true (some "thing") none (some "does a thing") none
        .stringK 0) .nil)).1).store = (initSt [(0, FlagVal.vstr "blahhh")]).store ∧
    (∃ added, ((walkFields ⟨true, true⟩ (initSt [(0, FlagVal.vstr "blahhh")]) ""
      (.cons (.atom "Thing" true (some "thing") none (some "does a thing") none
        .stringK 0) .nil)).1).registry =
        (initSt [(0, FlagVal.vstr "blahhh")]).registry ++ added) ∧
    (∀ c, c ∈ (initSt [(0, FlagVal.vstr "blahhh")]).shorts →
      c ∈ ((walkFields ⟨true, true⟩ (initSt [(0, FlagVal.vstr "blahhh")]) ""
        (.cons (.atom "Thing" true (some "thing") none (some "does a thing") none
          .stringK 0) .nil)).1).shorts) :=
  c10_binding_frame ⟨true, true⟩ (initSt [(0, FlagVal.vstr "blahhh")]) ""
    (.cons (.atom "Thing" true (some "thing") none (some "does a thing") none
      .stringK 0) .nil)

lemma flagsStep_ok {fc : FCol} {store : List (Nat × FlagVal)} {fields : GoFields}
    {st1 : St} (h : flagsStep fc store fields = .ok st1) :
    walkFields fc (initSt store) "" fields = (st1, none) ∧ st1.store = store := by
  unfold flagsStep at h
  rcases hw : walkFields fc (initSt store) "" fields with ⟨st', er⟩
  rw [hw] at h
  cases er with
  | some e =>
    dsimp only at h
    exact absurd h (by simp)
  | none =>
    dsimp only at h
    simp only [Except.ok.injEq] at h
    subst h
    refine ⟨rfl, ?_⟩
    have hev := walk_evolves.2 fields fc (initSt store) ""
    rw [hw] at hev
    exact hev.1

/-- Claim C1: `LoadArgsEnv` is exactly the sequence bind flags → load env →
parse args → callback → reload env → re-parse args, each failing step aborting
with its wrapping label; and for a bound field the final cell holds the parsed
command-line value when its flag appears in args, else the parsed environment
value when its variable is set, else the value the callback-era store holds
for it (the callback saw the struct-literal default there, and with no
callback the default survives untouched). -/
theorem c1_loadArgsEnv_sequence_and_precedence
    (fc : FCol) (store : List (Nat × FlagVal)) (fields : GoFields)
    (args : List (String × String)) (envPfx : String)
    (env : List (String × String))
    (cfg : Option (List (Nat × FlagVal) → Except String (List (Nat × FlagVal))))
    (st1 st2 st3 st4 st5 st6 : St) (e : RegEntry)
    (h1 : flagsStep fc store fields = .ok st1)
    (h2 : loadEnvGo fc env envPfx st1 = .ok st2)
    (h3 : parseArgs st2 args = .ok st3)
    (h4 : cfgStep cfg st3 = .ok st4)
    (h5 : loadEnvGo fc env envPfx st4 = .ok st5)
    (h6 : parseArgs st5 args = .ok st6)
    (hndn : (st1.registry.map RegEntry.name).Nodup)
    (hndc : (st1.registry.map RegEntry.cell).Nodup)
    (hnda : (args.map Prod.fst).Nodup)
    (he : e ∈ st1.registry) :
    LoadArgsEnvGo fc store fields args envPfx env cfg = .ok st6 ∧
    (∀ (fc' : FCol) (store' : List (Nat × FlagVal)) (fields' : GoFields)
       (args' : List (String × String)) (ep' : String)
       (env' : List (String × String))
       (cfg' : Option (List (Nat × FlagVal) → Except String (List (Nat × FlagVal))))
       (er : String),
      flagsStep fc' store' fields' = .error er →
      LoadArgsEnvGo fc' store' fields' args' ep' env' cfg' =
        .error ("calling Flags: " ++ er)) ∧
    (∀ (fc' : FCol) (store' : List (Nat × FlagVal)) (fields' : GoFields)
       (args' : List (String × String)) (ep' : String)
       (env' : List (String × String))
       (cfg' : Option (List (Nat × FlagVal) → Except String (List (Nat × FlagVal))))
       (s1 : St) (er : String),
      flagsStep fc' store' fields' = .ok s1 →
      loadEnvGo fc' env' ep' s1 = .error er →
      LoadArgsEnvGo fc' store' fields' args' ep' env' cfg' =
        .error ("loading environment: " ++ er)) ∧
    (∀ (fc' : FCol) (store' : List (Nat × FlagVal)) (fields' : GoFields)
       (args' : List (String × String)) (ep' : String)
       (env' : List (String × String))
       (cfg' : Option (List (Nat × FlagVal) → Except String (List (Nat × FlagVal))))
       (s1 s2 : St) (er : String),
      flagsStep fc' store' fields' = .ok s1 →
      loadEnvGo fc' env' ep' s1 = .ok s2 →
      parseArgs s2 args' = .error er →
      LoadArgsEnvGo fc' store' fields' args' ep' env' cfg' =
        .error ("parsing command line args: " ++ er)) ∧
    (∀ (fc' : FCol) (store' : List (Nat × FlagVal)) (fields' : GoFields)
       (args' : List (String × String)) (ep' : String)
       (env' : List (String × String))
       (cfg' : Option (List (Nat × FlagVal) → Except String (List (Nat × FlagVal))))
       (s1 s2 s3 : St) (er : String),
      flagsStep fc' store' fields' = .ok s1 →
      loadEnvGo fc' env' ep' s1 = .ok s2 →
      parseArgs s2 args' = .ok s3 →
      cfgStep cfg' s3 = .error er →
      LoadArgsEnvGo fc' store' fields' args' ep' env' cfg' =
        .error ("executing external parsing func: " ++ er)) ∧
    (∀ (fc' : FCol) (store' : List (Nat × FlagVal)) (fields' : GoFields)
       (args' : List (String × String)) (ep' : String)
       (env' : List (String × String))
       (cfg' : Option (List (Nat × FlagVal) → Except String (List (Nat × FlagVal))))
       (s1 s2 s3 s4 : St) (er : String),
      flagsStep fc' store' fields' = .ok s1 →
      loadEnvGo fc' env' ep' s1 = .ok s2 →
      parseArgs s2 args' = .ok s3 →
      cfgStep cfg' s3 = .ok s4 →
      loadEnvGo fc' env' ep' s4 = .error er →
      LoadArgsEnvGo fc' store' fields' args' ep' env' cfg' =
        .error ("reloading environment: " ++ er)) ∧
    (∀ (fc' : FCol) (store' : List (Nat × FlagVal)) (fields' : GoFields)
       (args' : List (String × String)) (ep' : String)
       (env' : List (String × String))
       (cfg' : Option (List (Nat × FlagVal) → Except String (List (Nat × FlagVal))))
       (s1 s2 s3 s4 s5 : St) (er : String),
      flagsStep fc' store' fields' = .ok s1 →
      loadEnvGo fc' env' ep' s1 = .ok s2 →
      parseArgs s2 args' = .ok s3 →
      cfgStep cfg' s3 = .ok s4 →
      loadEnvGo fc' env' ep' s4 = .ok s5 →
      parseArgs s5 args' = .error er →
      LoadArgsEnvGo fc' store' fields' args' ep' env' cfg' =
        .error ("reparsing command line args: " ++ er)) ∧
    (∀ v, alookup e.name args = some v →
      ∃ w, setByKind e.kind v = .ok w ∧
        storeLookup e.cell st6.store = some w) ∧
    (alookup e.name args = none →
      (∀ v, alookup (consultedEnvKey envPfx e.name) env = some v →
        ∃ w, setByKind e.kind v = .ok w ∧
          storeLookup e.cell st6.store = some w) ∧
      (alookup (consultedEnvKey envPfx e.name) env = none →
        storeLookup e.cell st6.store = storeLookup e.cell st4.store ∧
        storeLookup e.cell st3.store = storeLookup e.cell store ∧
        (cfg = none →
          storeLookup e.cell st6.store = storeLookup e.cell store))) := by
  have hst1 := (flagsStep_ok h1).2
  obtain ⟨reg2, _, cell2⟩ := loadEnvGo_spec h2 hndn hndc he
  have he2 : e ∈ st2.registry := reg2 ▸ he
  have hndn2 : (st2.registry.map RegEntry.name).Nodup := by rw [reg2]; exact hndn
  have hndc2 : (st2.registry.map RegEntry.cell).Nodup := by rw [reg2]; exact hndc
  obtain ⟨reg3, _, cell3⟩ := parseArgs_spec args st2 st3 e h3 hndn2 hndc2 he2 hnda
  obtain ⟨reg4, _⟩ := cfgStep_ok h4
  have he4 : e ∈ st4.registry := by rw [reg4, reg3]; exact he2
  have hndn4 : (st4.registry.map RegEntry.name).Nodup := by
    rw [reg4, reg3]; exact hndn2
  have hndc4 : (st4.registry.map RegEntry.cell).Nodup := by
    rw [reg4, reg3]; exact hndc2
  obtain ⟨reg5, _, cell5⟩ := loadEnvGo_spec h5 hndn4 hndc4 he4
  have he5 : e ∈ st5.registry := reg5 ▸ he4
  have hndn5 : (st5.registry.map RegEntry.name).Nodup := by rw [reg5]; exact hndn4
  have hndc5 : (st5.registry.map RegEntry.cell).Nodup := by rw [reg5]; exact hndc4
  obtain ⟨reg6, _, cell6⟩ := parseArgs_spec args st5 st6 e h6 hndn5 hndc5 he5 hnda
  refine ⟨?_, ?_, ?_, ?_, ?_, ?_, ?_, ?_, ?_⟩
  · simp only [LoadArgsEnvGo, h1, h2, h3, h4, h5, h6, wrapErr, Except.bind]
  · intro fc' store' fields' args' ep' env' cfg' er herr
    simp only [LoadArgsEnvGo, herr, wrapErr, Except.bind]
  · intro fc' store' fields' args' ep' env' cfg' s1 er hok herr
    simp only [LoadArgsEnvGo, hok, herr, wrapErr, Except.bind]
  · intro fc' store' fields' args' ep' env' cfg' s1 s2 er hA hB herr
    simp only [LoadArgsEnvGo, hA, hB, herr, wrapErr, Except.bind]
  · intro fc' store' fields' args' ep' env' cfg' s1 s2 s3 er hA hB hC herr
    simp only [LoadArgsEnvGo, hA, hB, hC, herr, wrapErr, Except.bind]
  · intro fc' store' fields' args' ep' env' cfg' s1 s2 s3 s4 er hA hB hC hD herr
    simp only [LoadArgsEnvGo, hA, hB, hC, hD, herr, wrapErr, Except.bind]
  · intro fc' store' fields' args' ep' env' cfg' s1 s2 s3 s4 s5 er hA hB hC hD hE herr
    simp only [LoadArgsEnvGo, hA, hB, hC, hD, hE, herr, wrapErr, Except.bind]
  · intro v hv
    rw [hv] at cell6
    exact cell6
  · intro hargnone
    rw [hargnone] at cell6 cell3
    dsimp only at cell6 cell3
    constructor
    · intro v hv
      rw [hv] at cell5
      dsimp only at cell5
      obtain ⟨w, hw, hl⟩ := cell5
      exact ⟨w, hw, cell6.trans hl⟩
    · intro henvnone
      rw [henvnone] at cell5 cell2
      dsimp only at cell5 cell2
      have h63 : storeLookup e.cell st6.store = storeLookup e.cell st4.store :=
        cell6.trans cell5
      have h30 : storeLookup e.cell st3.store = storeLookup e.cell store := by
        rw [cell3, cell2, hst1]
      refine ⟨h63, h30, ?_⟩
      intro hcfg
      subst hcfg
      have hst43 : st4 = st3 := by
        unfold cfgStep at h4
        simpa using h4.symm
      rw [h63, hst43]
      exact h30

/-- Witness for C1: an int field Two with default 2, environment
COMMANDEER_TWO=23 and args two=99 ends at 99 (args beat env beat default). -/
theorem c1_witness :
    (LoadArgsEnvGo ⟨false, true⟩ [(0, FlagVal.vint 2)]
      (.cons (.atom "Two" true none none none none .intK 0) .nil)
      [("two", "99")] "COMMANDEER_" [("COMMANDEER_TWO", "23")] none =
      .ok ⟨[⟨"two", "", .kint, .vint 2, 0, ""⟩], ['h'],
        [(0, FlagVal.vint 99), (0, FlagVal.vint 23), (0, FlagVal.vint 99),
         (0, FlagVal.vint 23), (0, FlagVal.vint 2)]⟩) ∧
    (∃ w, setByKind ValueKind.kint "99" = .ok w ∧
      storeLookup 0
        [(0, FlagVal.vint 99), (0, FlagVal.vint 23), (0, FlagVal.vint 99),
         (0, FlagVal.vint 23), (0, FlagVal.vint 2)] = some w) :=
  have h := c1_loadArgsEnv_sequence_and_precedence ⟨false, true⟩
    [(0, FlagVal.vint 2)]
    (.cons (.atom "Two" true none none none none .intK 0) .nil)
    [("two", "99")] "COMMANDEER_" [("COMMANDEER_TWO", "23")] none
    ⟨[⟨"two", "", .kint, .vint 2, 0, ""⟩], ['h'], [(0, FlagVal.vint 2)]⟩
    ⟨[⟨"two", "", .kint, .vint 2, 0, ""⟩], ['h'],
      [(0, FlagVal.vint 23), (0, FlagVal.vint 2)]⟩
    ⟨[⟨"two", "", .kint, .vint 2, 0, ""⟩], ['h'],
      [(0, FlagVal.vint 99), (0, FlagVal.vint 23), (0, FlagVal.vint 2)]⟩
    ⟨[⟨"two", "", .kint, .vint 2, 0, ""⟩], ['h'],
      [(0, FlagVal.vint 99), (0, FlagVal.vint 23), (0, FlagVal.vint 2)]⟩
    ⟨[⟨"two", "", .kint, .vint 2, 0, ""⟩], ['h'],
      [(0, FlagVal.vint 23), (0, FlagVal.vint 99), (0, FlagVal.vint 23),
       (0, FlagVal.vint 2)]⟩
    ⟨[⟨"two", "", .kint, .vint 2, 0, ""⟩], ['h'],
      [(0, FlagVal.vint 99), (0, FlagVal.vint 23), (0, FlagVal.vint 99),
       (0, FlagVal.vint 23), (0, FlagVal.vint 2)]⟩
    ⟨"two", "", .kint, .vint 2, 0, ""⟩
    rfl rfl rfl rfl rfl rfl (by decide) (by decide) (by decide) (by decide)
  ⟨h.1, h.2.2.2.2.2.2.2.1 "99" rfl⟩

end Commandeer
